import Mathlib

/-!
# Verification of the Royal Liquor barcode-resolution service

A shallow embedding, in Lean 4, of the core algorithms of the repository
(src/app.py, src/optimized-flask-app.py, src/inventory.py): UPC validation,
the sliding-window rate limiter, the lookup pipelines, the external-fetch
retry loop, title parsing/name formatting, money arithmetic and the LRU
response cache. Strings are modelled over their character lists; Python
floats are modelled, where needed, as exactly rounded rationals; machine
behaviour that the claims do not touch (logging, HTTP transport, JSON
encoding) is elided.
-/

namespace RoyalLiquor

/-! ## UPC validation

Embeds `validate_upc` (src/app.py lines 54-82) = `UPCValidator.validate`
(src/optimized-flask-app.py lines 103-136).  The detailed error messages of
the source are elided: `none` stands for every `(False, message)` return and
`some cleaned` for `(True, cleaned_barcode)`. -/

/-- ASCII characters of Python's regex class `\s`. -/
def pySpace (c : Char) : Bool :=
  c == ' ' || c == '\t' || c == '\n' || c == '\r' || c == '\x0b' || c == '\x0c'

/-- A character removed by `re.sub(r'[\s-]', '', barcode)`. -/
def pyWsOrHyphen (c : Char) : Bool :=
  pySpace c || c == '-'

/-- `re.sub(r'[\s-]', '', barcode)` on the character list. -/
def stripWsHyphen (l : List Char) : List Char :=
  l.filter (fun c => !pyWsOrHyphen c)

/-- Python's `str.isdigit` over ASCII text: non-empty and all decimal digits. -/
def pyIsdigit (l : List Char) : Bool :=
  !l.isEmpty && l.all Char.isDigit

/-- Numeric value of a decimal digit character (`int(d)` in the source). -/
def digitVal (c : Char) : ℕ := c.toNat - 48

/-- Sum of the elements at even indices 0, 2, 4, … of a list. -/
def altSum : List ℕ → ℕ
  | [] => 0
  | [a] => a
  | a :: _ :: rest => a + altSum rest

/-- The check-digit computation of app.py line 75 on a 12-digit list:
`digits[-2::-2]` is every other element of the reversed list starting after
the final digit, `digits[-3::-2]` every other element starting two from the
end, and the checksum is `(10 - ((3*sum₁ + sum₂) % 10)) % 10`. -/
def upcChecksum (ds : List ℕ) : ℕ :=
  (10 - ((3 * altSum (ds.reverse.drop 1) + altSum (ds.reverse.drop 2)) % 10)) % 10

/-- The check digit that makes an 11-digit prefix into a valid UPC-A code
(the checksum formula reads only the first 11 digits of its argument). -/
def upcCheckDigit (ds : List ℕ) : ℕ := upcChecksum (ds ++ [0])

/-- `validate_upc` / `UPCValidator.validate`: empty input fails; strip
whitespace and hyphens; all characters must be digits; length must be 8, 12
or 13; a 12-digit code must carry its UPC-A check digit; on success the
cleaned barcode is returned. -/
def validate_upc (s : String) : Option String :=
  if s.data.isEmpty then none
  else
    let cleaned := stripWsHyphen s.data
    if !pyIsdigit cleaned then none
    else if ¬(cleaned.length = 8 ∨ cleaned.length = 12 ∨ cleaned.length = 13) then none
    else
      let ds := cleaned.map digitVal
      if cleaned.length = 12 ∧ upcChecksum ds ≠ ds.getLastD 0 then none
      else some (String.mk cleaned)

/-- The stripping step exactly as the claim words it: remove only spaces and
hyphens (not other whitespace). -/
def claimStrip (l : List Char) : List Char :=
  l.filter (fun c => !(c == ' ' || c == '-'))

/-- The claim's acceptance condition for `validate`: after removing spaces
and hyphens the remainder is a non-empty all-digit string of length 8, 12 or
13 whose UPC-A check digit matches when the length is 12. -/
def claimAccepts (s : String) : Bool :=
  let cleaned := claimStrip s.data
  let ds := cleaned.map digitVal
  pyIsdigit cleaned &&
    (cleaned.length == 8 || cleaned.length == 12 || cleaned.length == 13) &&
    (cleaned.length != 12 || upcChecksum ds == ds.getLastD 0)

end RoyalLiquor

namespace RoyalLiquor

/-! ### Facts about the validator -/

theorem pyIsdigit_iff (l : List Char) :
    pyIsdigit l = true ↔ l ≠ [] ∧ ∀ c ∈ l, c.isDigit := by
  simp [pyIsdigit, List.isEmpty_iff]

theorem digitChar_digit {d : ℕ} (h : d < 10) : (Nat.digitChar d).isDigit = true := by
  interval_cases d <;> decide

theorem digitChar_not_ws {d : ℕ} (h : d < 10) : pyWsOrHyphen (Nat.digitChar d) = false := by
  interval_cases d <;> decide

theorem digitVal_digitChar {d : ℕ} (h : d < 10) : digitVal (Nat.digitChar d) = d := by
  interval_cases d <;> decide

theorem upcChecksum_lt (ds : List ℕ) : upcChecksum ds < 10 :=
  Nat.mod_lt _ (by norm_num)

/-- The checksum formula never reads the final digit: appending any digit to
an 11-digit prefix leaves it unchanged. -/
theorem upcChecksum_append (ds : List ℕ) (x : ℕ) :
    upcChecksum (ds ++ [x]) = upcChecksum (ds ++ [0]) := by
  simp [upcChecksum, List.reverse_append]

/-- `validate_upc` in closed form: it succeeds, returning the stripped
barcode, exactly when the stripped barcode is a non-empty all-digit string of
length 8, 12 or 13 whose UPC-A check digit matches when the length is 12. -/
theorem validate_upc_eq (s : String) :
    validate_upc s =
      if pyIsdigit (stripWsHyphen s.data) = true
          ∧ ((stripWsHyphen s.data).length = 8 ∨ (stripWsHyphen s.data).length = 12
              ∨ (stripWsHyphen s.data).length = 13)
          ∧ ((stripWsHyphen s.data).length = 12 →
              upcChecksum ((stripWsHyphen s.data).map digitVal)
                = ((stripWsHyphen s.data).map digitVal).getLastD 0) then
        some (String.mk (stripWsHyphen s.data))
      else none := by
  unfold validate_upc
  by_cases he : s.data.isEmpty = true
  · have h0 : stripWsHyphen s.data = [] := by
      rw [List.isEmpty_iff] at he
      simp [stripWsHyphen, he]
    simp [he, h0, pyIsdigit]
  · rw [if_neg he]
    dsimp only
    split_ifs with h1 h2 h3 h4 <;>
      first
        | rfl
        | (exfalso
           try simp only [Bool.not_eq_true', Bool.not_eq_false, not_or, not_and, not_not] at *
           try simp only [← Bool.not_eq_true] at *
           tauto)

/-- C1 (amended): `validate_upc` succeeds exactly when, after stripping
whitespace and hyphens (the source strips the regex class `[\s-]`), the
result is a non-empty all-digit string of length 8, 12 or 13 whose UPC-A
check digit matches when the length is 12; on success it returns the
stripped string; lengths 8 and 13 carry no checksum check; and appending the
correct check digit to any 11 digits always validates. -/
theorem validate_upc_amended :
    (∀ s : String,
      (validate_upc s).isSome = true ↔
        (pyIsdigit (stripWsHyphen s.data) = true
          ∧ ((stripWsHyphen s.data).length = 8 ∨ (stripWsHyphen s.data).length = 12
              ∨ (stripWsHyphen s.data).length = 13)
          ∧ ((stripWsHyphen s.data).length = 12 →
              upcChecksum ((stripWsHyphen s.data).map digitVal)
                = ((stripWsHyphen s.data).map digitVal).getLastD 0)))
    ∧ (∀ s r, validate_upc s = some r → r = String.mk (stripWsHyphen s.data))
    ∧ (∀ ds : List ℕ, ds.length = 11 → (∀ d ∈ ds, d < 10) →
        validate_upc (String.mk ((ds ++ [upcCheckDigit ds]).map Nat.digitChar))
          = some (String.mk ((ds ++ [upcCheckDigit ds]).map Nat.digitChar))) := by
  refine ⟨?_, ?_, ?_⟩
  · intro s
    rw [validate_upc_eq]
    split_ifs with h
    · simpa using h
    · simpa using h
  · intro s r h
    rw [validate_upc_eq] at h
    split_ifs at h
    exact (Option.some_inj.mp h).symm
  · intro ds h11 hds
    have hcd : upcCheckDigit ds < 10 := upcChecksum_lt _
    have hall : ∀ d ∈ ds ++ [upcCheckDigit ds], d < 10 := by
      intro d hd
      rcases List.mem_append.mp hd with h | h
      · exact hds d h
      · simpa using (List.mem_singleton.mp h) ▸ hcd
    set a := (ds ++ [upcCheckDigit ds]).map Nat.digitChar with ha
    have hstrip : stripWsHyphen ((String.mk a).data) = a := by
      apply List.filter_eq_self.mpr
      intro c hc
      rcases List.mem_map.mp hc with ⟨d, hd, rfl⟩
      simp [digitChar_not_ws (hall d hd)]
    have hround : ∀ l : List ℕ, (∀ d ∈ l, d < 10) → (l.map Nat.digitChar).map digitVal = l := by
      intro l hl
      induction l with
      | nil => rfl
      | cons x xs ih =>
          simp only [List.map_cons, digitVal_digitChar (hl x (by simp))]
          rw [ih (fun d hd => hl d (by simp [hd]))]
    have hback : a.map digitVal = ds ++ [upcCheckDigit ds] := by
      rw [ha]
      exact hround _ hall
    have hlen : a.length = 12 := by simp [ha, h11]
    have hdig : pyIsdigit a = true := by
      rw [pyIsdigit, Bool.and_eq_true]
      constructor
      · have : a ≠ [] := by
          intro h
          rw [h] at hlen
          simp at hlen
        simpa [List.isEmpty_iff] using this
      · rw [List.all_eq_true]
        intro c hc
        rcases List.mem_map.mp hc with ⟨d, hd, rfl⟩
        exact digitChar_digit (hall d hd)
    have hdata : (String.mk a).data = a := rfl
    rw [validate_upc_eq, hdata, hstrip, if_pos]
    refine ⟨hdig, Or.inr (Or.inl hlen), fun _ => ?_⟩
    rw [hback, List.getLastD_concat]
    exact upcChecksum_append ds (upcCheckDigit ds)

/-- C1 counterexample: on the input `"1\t2345678"` the code strips the tab
(the source strips the whole class `[\s-]`) and accepts, returning
`"12345678"`, while the claim's condition — stripping only spaces and
hyphens — leaves a non-digit character and demands rejection. -/
theorem validate_upc_counterexample :
    validate_upc "1\t2345678" = some "12345678" ∧ claimAccepts "1\t2345678" = false := by
  constructor <;> rfl

/-! ## Sliding-window rate limiter

Embeds `RateLimiter.is_allowed` (src/optimized-flask-app.py lines 39-51).
Timestamps (`time.time()` floats) are modelled as rationals.  The lock around
the body is dropped: the embedding describes one sequentialised call. -/

/-- Python's `int()` applied to a number: truncation toward zero. -/
def pyInt (q : ℚ) : ℤ := if q < 0 then ⌈q⌉ else ⌊q⌋

/-- One `is_allowed` call: keep the requests `req` with `now - req < period`,
admit and append `now` when fewer than `rate_limit` remain, otherwise deny
with `int(oldest + period - now)` where `oldest` is the first kept request.
Returns `((allowed, wait_time), new_requests)`. -/
def isAllowed (rate_limit : ℕ) (period : ℚ) (requests : List ℚ) (now : ℚ) :
    (Bool × Option ℤ) × List ℚ :=
  let kept := requests.filter (fun req => decide (now - req < period))
  if kept.length < rate_limit then ((true, none), kept ++ [now])
  else ((false, some (pyInt (kept.headI + period - now))), kept)

/-- The admission check exactly as the claim words it: drop the timestamps
*older than* `now - windowSeconds` (strictly), then proceed identically. -/
def claimTryAdmit (rate_limit : ℕ) (period : ℚ) (requests : List ℚ) (now : ℚ) :
    (Bool × Option ℤ) × List ℚ :=
  let kept := requests.filter (fun req => decide (¬(req < now - period)))
  if kept.length < rate_limit then ((true, none), kept ++ [now])
  else ((false, some (pyInt (kept.headI + period - now))), kept)

/-- C2 counterexample: a stored timestamp exactly `windowSeconds` old.  With
limit 1, window 10, stored timestamp 0 and `now = 10`, the code drops the
timestamp (it keeps `req` only when `now - req < period`) and admits the
call, while the claim's rule — drop only timestamps strictly older than
`now - windowSeconds` — retains it and denies. -/
theorem rate_limiter_counterexample :
    (isAllowed 1 10 [(0 : ℚ)] 10).1.1 = true
      ∧ (claimTryAdmit 1 10 [(0 : ℚ)] 10).1.1 = false := by
  constructor <;> norm_num [isAllowed, claimTryAdmit]

/-- The conclusion of the amended C2 claim, as one predicate so that the
witness can instantiate it: the filter keeps exactly the requests strictly
younger than `period` (so it drops those at least `period` old), admission
happens iff fewer than `rate_limit` remain and appends `now`; denial reports
`int(oldest_kept + period - now)`, which — the operand being positive — is
its floor; and if the stored requests are chronological the first kept one is
the oldest. -/
def rateLimiterOk (rate_limit : ℕ) (period : ℚ) (requests : List ℚ) (now : ℚ) : Prop :=
  (∀ req, req ∈ requests.filter (fun r => decide (now - r < period)) ↔
      req ∈ requests ∧ now - req < period)
  ∧ ((isAllowed rate_limit period requests now).1.1 = true ↔
      (requests.filter (fun r => decide (now - r < period))).length < rate_limit)
  ∧ ((isAllowed rate_limit period requests now).1.1 = true →
      (isAllowed rate_limit period requests now).2 =
        requests.filter (fun r => decide (now - r < period)) ++ [now])
  ∧ (0 < rate_limit →
      ∀ kept, kept = requests.filter (fun r => decide (now - r < period)) →
        rate_limit ≤ kept.length →
          (isAllowed rate_limit period requests now).1.2 =
              some ⌊kept.headI + period - now⌋
            ∧ 0 < kept.headI + period - now
            ∧ (requests.Sorted (· ≤ ·) → ∀ r ∈ kept, kept.headI ≤ r))

/-- The three-call scenario of the amended C2 claim, as one predicate: with
2 requests per 10-second window and calls at `t1 ≤ t2 ≤ t3` with
`t3 - t1 < 10`, the first two calls are admitted and the third is denied
with a `retry_after` within one second below the exact time until the first
call ages out. -/
def rateLimiterScenario (t1 t2 t3 : ℚ) : Prop :=
  (isAllowed 2 10 [] t1).1 = (true, none)
  ∧ (isAllowed 2 10 (isAllowed 2 10 [] t1).2 t2).1 = (true, none)
  ∧ (isAllowed 2 10 (isAllowed 2 10 (isAllowed 2 10 [] t1).2 t2).2 t3).1.1 = false
  ∧ ∀ w, (isAllowed 2 10 (isAllowed 2 10 (isAllowed 2 10 [] t1).2 t2).2 t3).1.2 = some w →
      (w : ℚ) ≤ t1 + 10 - t3 ∧ t1 + 10 - t3 - 1 < (w : ℚ)

/-- C2 (amended): on every call the limiter drops the stored timestamps at
least `windowSeconds` old (`now - req ≥ period`, i.e. also the one exactly at
the boundary), admits and appends `now` iff fewer than `maxRequests` remain,
and otherwise denies with the floor of `oldest remaining + window - now`
(`int()` truncates, and the operand is positive); with 2 requests per
10-second window, a third call within 10 seconds of the first is denied with
`retry_after` within one second of the time until the first call ages out. -/
theorem rate_limiter_amended :
    (∀ (rate_limit : ℕ) (period : ℚ) (requests : List ℚ) (now : ℚ),
        rateLimiterOk rate_limit period requests now)
    ∧ (∀ t1 t2 t3 : ℚ, t1 ≤ t2 → t2 ≤ t3 → t3 - t1 < 10 →
        rateLimiterScenario t1 t2 t3) := by
  constructor
  · intro rate_limit period requests now
    refine ⟨?_, ?_, ?_, ?_⟩
    · intro req
      simp [List.mem_filter]
    · unfold isAllowed
      dsimp only
      split_ifs with h <;> simp [h]
    · unfold isAllowed
      dsimp only
      split_ifs with h <;> simp [h]
    · intro hpos kept hkept hle
      have hne : kept ≠ [] := by
        intro h0
        rw [h0] at hle
        simp at hle
        omega
      obtain ⟨a, t, rfl⟩ : ∃ a t, kept = a :: t := by
        cases kept with
        | nil => exact absurd rfl hne
        | cons a t => exact ⟨a, t, rfl⟩
      have hmem : a ∈ requests.filter (fun r => decide (now - r < period)) := by
        rw [← hkept]
        simp
      have hlt : now - a < period := by
        have := (List.mem_filter.mp hmem).2
        simpa using this
      have hq : 0 < (a :: t).headI + period - now := by
        rw [List.headI_cons]
        linarith
      refine ⟨?_, hq, ?_⟩
      · unfold isAllowed
        dsimp only
        rw [← hkept, if_neg (by omega)]
        simp only [Option.some_inj]
        rw [pyInt, if_neg (not_lt.mpr (le_of_lt hq))]
      · intro hsorted r hr
        have hks : (a :: t).Sorted (· ≤ ·) := hkept ▸ hsorted.filter _
        rw [List.headI_cons]
        rcases List.mem_cons.mp hr with rfl | hrt
        · exact le_refl _
        · exact (List.sorted_cons.mp hks).1 r hrt
  · intro t1 t2 t3 h12 h23 h31
    have hA : t2 - t1 < 10 := by linarith
    have hB : t3 - t2 < 10 := by linarith
    have hq : (0 : ℚ) < t1 + 10 - t3 := by linarith
    have hnn : ¬(t1 + 10 - t3 < 0) := by linarith
    have s1 : isAllowed 2 10 [] t1 = ((true, none), [t1]) := by
      norm_num [isAllowed]
    have s2 : isAllowed 2 10 [t1] t2 = ((true, none), [t1, t2]) := by
      norm_num [isAllowed, hA]
    have s3 : isAllowed 2 10 [t1, t2] t3
        = ((false, some ⌊t1 + 10 - t3⌋), [t1, t2]) := by
      norm_num [isAllowed, h31, hB, pyInt, hnn]
    unfold rateLimiterScenario
    rw [s1]
    dsimp only
    rw [s2]
    dsimp only
    rw [s3]
    refine ⟨rfl, rfl, rfl, ?_⟩
    intro w hw
    obtain rfl : (⌊t1 + 10 - t3⌋ : ℤ) = w := Option.some_inj.mp hw
    constructor
    · exact_mod_cast Int.floor_le (t1 + 10 - t3)
    · exact_mod_cast Int.sub_one_lt_floor (t1 + 10 - t3)

/-! ## Money: exact decimal parsing and arithmetic

Embeds `PriceConverter` (src/optimized-flask-app.py lines 56-73) and the cart
total `CartManager.get_total` (lines 174-178).  Python's `decimal.Decimal`
values are modelled as exact rationals; the grammar `Decimal` accepts on a
digits-and-dots string is: at most one dot and at least one digit.

`to_decimal` first returns `Decimal('0')` for falsy input, then strips every
character but digits and dots (`re.sub(r'[^\d.]', '', price_str)`) and calls
`Decimal(cleaned)`.  The surrounding `except` clause catches only
`(ValueError, TypeError)`, but an invalid literal makes `Decimal` raise
`decimal.InvalidOperation`, a subclass of `ArithmeticError` — so that
exception propagates to the caller, modelled as `Except.error ()`. -/

/-- `re.sub(r'[^\d.]', '', price_str)`: keep only digits and dots. -/
def pyDecimalStrip (l : List Char) : List Char :=
  l.filter (fun c => c.isDigit || c == '.')

/-- Value of a digit string, most significant first. -/
def natOfDigits (l : List Char) : ℕ :=
  l.foldl (fun a c => 10 * a + digitVal c) 0

/-- `Decimal(text)` on a digits-and-dots string: no dot needs a non-empty
digit run; one dot needs at least one digit on either side; more than one
dot is invalid (`decimal.InvalidOperation`, modelled as `none`). -/
def decimalOfChars (l : List Char) : Option ℚ :=
  match l.count '.' with
  | 0 => if l.isEmpty then none else some (natOfDigits l)
  | 1 =>
      let ip := l.takeWhile (fun c => c != '.')
      let fp := (l.dropWhile (fun c => c != '.')).tail
      if ip.isEmpty && fp.isEmpty then none
      else some ((natOfDigits (ip ++ fp) : ℚ) / 10 ^ fp.length)
  | _ => none

/-- `PriceConverter.to_decimal`.  `Except.error ()` is the uncaught
`decimal.InvalidOperation` escaping to the caller. -/
def to_decimal (s : String) : Except Unit ℚ :=
  if s.data.isEmpty then .ok 0
  else
    match decimalOfChars (pyDecimalStrip s.data) with
    | some q => .ok q
    | none => .error ()

/-- Price times integer quantity (`item['price'] * item['quantity']`). -/
def multiplyMoney (m : ℚ) (qty : ℕ) : ℚ := m * qty

/-- `CartManager.get_total`: the sum of price times quantity over the cart. -/
def getTotal (items : List (ℚ × ℕ)) : ℚ :=
  (items.map (fun it => multiplyMoney it.1 it.2)).sum

/-- C8: `PriceConverter.to_decimal` raises to its caller.  On `"abc"` the
stripped remainder is empty and `Decimal('')` raises
`decimal.InvalidOperation`, which `except (ValueError, TypeError)` does not
catch; likewise `"1.2.3"`.  Only genuinely falsy input (`""`) takes the
guarded `Decimal('0')` path, and well-formed prices parse exactly. -/
theorem to_decimal_uncaught :
    to_decimal "abc" = Except.error ()
    ∧ to_decimal "1.2.3" = Except.error ()
    ∧ to_decimal "" = Except.ok 0
    ∧ to_decimal "$12.50" = Except.ok (25 / 2 : ℚ) := by
  refine ⟨rfl, rfl, rfl, ?_⟩
  have h : to_decimal "$12.50" = Except.ok ((((1250 : ℕ) : ℚ)) / 10 ^ 2) := rfl
  rw [h]
  norm_num

/-- C7: money arithmetic over the exact-decimal model is exact:
`multiply(parse("$12.50"), 3) = parse("$37.50")` on the nose, and cart totals
over repeated items accumulate exactly `n · p` — no rounding drift. -/
theorem money_arith_exact :
    to_decimal "$12.50" = Except.ok (25 / 2 : ℚ)
    ∧ Except.map (fun m : ℚ => multiplyMoney m 3) (to_decimal "$12.50") = to_decimal "$37.50"
    ∧ (∀ (p : ℚ) (n : ℕ), getTotal (List.replicate n (p, 1)) = n * p)
    ∧ (∀ (items : List (ℚ × ℕ)) (p : ℚ) (n : ℕ),
        getTotal (items ++ List.replicate n (p, 1)) = getTotal items + n * p) := by
  have h1 : to_decimal "$12.50" = Except.ok ((((1250 : ℕ) : ℚ)) / 10 ^ 2) := rfl
  have h2 : to_decimal "$37.50" = Except.ok ((((3750 : ℕ) : ℚ)) / 10 ^ 2) := rfl
  have hrep : ∀ (p : ℚ) (n : ℕ), getTotal (List.replicate n (p, 1)) = n * p := by
    intro p n
    induction n with
    | zero => simp [getTotal]
    | succ k ih =>
        rw [List.replicate_succ]
        simp only [getTotal, List.map_cons, List.sum_cons] at ih ⊢
        rw [ih]
        push_cast
        rw [multiplyMoney]
        push_cast
        ring
  refine ⟨?_, ?_, hrep, ?_⟩
  · rw [h1]
    norm_num
  · rw [h1, h2]
    simp only [Except.map, multiplyMoney]
    norm_num
  · intro items p n
    simp only [getTotal, List.map_append, List.sum_append]
    have := hrep p n
    simp only [getTotal] at this
    rw [this]

/-! ### Binary floating point in the synchronous variant

`parse_price` (src/app.py lines 99-107) returns a Python *float*: binary64.
`fl` is the IEEE 754 binary64 rounding of an exact rational — round to
nearest, ties to even, 53-bit significand — for values in the normal range
(the modelled prices are; overflow and subnormals are not modelled).
`Int.log 2 |q|` is the exponent of the leading binary digit, so the
significand `|q| * 2 ^ (52 - e)` lies in `[2^52, 2^53)` and is rounded to an
integer.  `parse_price` strips `$` and `,` (`str.replace`), converts with
`float(...)` (exact decimal value, then one rounding) and returns `0.0` on a
`ValueError`, which — unlike `Decimal` — `float()` raises as an actual
`ValueError` and the `except` clause catches. -/

/-- Round a rational to an integer: nearest, ties to even. -/
def roundHalfEven (x : ℚ) : ℤ :=
  if x - ⌊x⌋ < 1 / 2 then ⌊x⌋
  else if 1 / 2 < x - ⌊x⌋ then ⌊x⌋ + 1
  else if ⌊x⌋ % 2 = 0 then ⌊x⌋ else ⌊x⌋ + 1

/-- IEEE 754 binary64 value nearest `q` (ties to even), normal range. -/
def fl (q : ℚ) : ℚ :=
  if q = 0 then 0
  else
    let a := |q|
    let e := Int.log 2 a
    let m := roundHalfEven (a * 2 ^ ((52 : ℤ) - e))
    let r := (m : ℚ) * 2 ^ (e - (52 : ℤ))
    if q < 0 then -r else r

/-- `float(text)` on the digits-and-dots fragment of its grammar: the exact
decimal value, rounded once to binary64.  Text outside that fragment is a
`ValueError` (`none`); the exponent/`inf`/`nan` forms, which no price string
uses, are not modelled. -/
def floatOfChars (l : List Char) : Option ℚ :=
  if l.all (fun c => c.isDigit || c == '.') then (decimalOfChars l).map fl else none

/-- `parse_price` (app.py): strip `$` and `,`, convert with `float`,
return `0.0` when the `ValueError` is caught. -/
def parse_price (s : String) : ℚ :=
  if s.data.isEmpty then 0
  else
    match floatOfChars (s.data.filter (fun c => !(c == '$' || c == ','))) with
    | some q => q
    | none => 0

/-- Python float multiplication: the exact product, rounded once. -/
def mulFloat (a b : ℚ) : ℚ := fl (a * b)

theorem intLog_eq_of {r : ℚ} {e : ℤ} (hr : 0 < r) (h1 : (2 : ℚ) ^ e ≤ r)
    (h2 : r < (2 : ℚ) ^ (e + 1)) : Int.log 2 r = e := by
  have hle : e ≤ Int.log 2 r := (Int.zpow_le_iff_le_log one_lt_two hr).mp h1
  have hlt : Int.log 2 r < e + 1 := (Int.lt_zpow_iff_log_lt one_lt_two hr).mp h2
  omega

theorem floor_eq_of {x : ℚ} {n : ℤ} (h1 : (n : ℚ) ≤ x) (h2 : x < n + 1) : ⌊x⌋ = n :=
  Int.floor_eq_iff.mpr ⟨h1, h2⟩

/-- `float("1.10")`: the decimal 1.10 rounds up to the binary64 value
`4953959590107546 / 2^52`. -/
theorem fl_one_ten : fl (((110 : ℕ) : ℚ) / 10 ^ 2) = (4953959590107546 : ℚ) / 2 ^ 52 := by
  unfold fl
  rw [if_neg (by norm_num)]
  have habs : |(((110 : ℕ) : ℚ) / 10 ^ 2)| = ((110 : ℕ) : ℚ) / 10 ^ 2 :=
    abs_of_pos (by norm_num)
  dsimp only
  rw [habs]
  have he : Int.log 2 (((110 : ℕ) : ℚ) / 10 ^ 2) = 0 :=
    intLog_eq_of (by norm_num) (by norm_num) (by norm_num)
  rw [he]
  have harg : ((110 : ℕ) : ℚ) / 10 ^ 2 * 2 ^ ((52 : ℤ) - 0) = 49539595901075456 / 10 := by
    norm_num
  rw [harg]
  have hf : (⌊(49539595901075456 : ℚ) / 10⌋ : ℤ) = 4953959590107545 :=
    floor_eq_of (by norm_num) (by norm_num)
  have hr : roundHalfEven ((49539595901075456 : ℚ) / 10) = 4953959590107546 := by
    rw [roundHalfEven, hf]
    norm_num
  rw [hr, if_neg (by norm_num)]
  have : ((0 : ℤ) - 52) = -52 := by norm_num
  rw [this, zpow_neg]
  norm_num

/-- `float("3.30")`: the decimal 3.30 rounds down to the binary64 value
`7430939385161318 / 2^51`. -/
theorem fl_three_thirty : fl (((330 : ℕ) : ℚ) / 10 ^ 2) = (7430939385161318 : ℚ) / 2 ^ 51 := by
  unfold fl
  rw [if_neg (by norm_num)]
  have habs : |(((330 : ℕ) : ℚ) / 10 ^ 2)| = ((330 : ℕ) : ℚ) / 10 ^ 2 :=
    abs_of_pos (by norm_num)
  dsimp only
  rw [habs]
  have he : Int.log 2 (((330 : ℕ) : ℚ) / 10 ^ 2) = 1 :=
    intLog_eq_of (by norm_num) (by norm_num) (by norm_num)
  rw [he]
  have harg : ((330 : ℕ) : ℚ) / 10 ^ 2 * 2 ^ ((52 : ℤ) - 1) = 74309393851613184 / 10 := by
    norm_num
  rw [harg]
  have hf : (⌊(74309393851613184 : ℚ) / 10⌋ : ℤ) = 7430939385161318 :=
    floor_eq_of (by norm_num) (by norm_num)
  have hr : roundHalfEven ((74309393851613184 : ℚ) / 10) = 7430939385161318 := by
    rw [roundHalfEven, hf]
    norm_num
  rw [hr, if_neg (by norm_num)]
  have : ((1 : ℤ) - 52) = -51 := by norm_num
  rw [this, zpow_neg]
  norm_num

/-- The float product `float("1.10") * 3` is exact in the significand and
rounds to `7430939385161319 / 2^51` — one ulp above `float("3.30")`. -/
theorem fl_product_three :
    fl ((4953959590107546 : ℚ) / 2 ^ 52 * 3) = (7430939385161319 : ℚ) / 2 ^ 51 := by
  unfold fl
  rw [if_neg (by norm_num)]
  have habs : |((4953959590107546 : ℚ) / 2 ^ 52 * 3)| = (4953959590107546 : ℚ) / 2 ^ 52 * 3 :=
    abs_of_pos (by norm_num)
  dsimp only
  rw [habs]
  have he : Int.log 2 ((4953959590107546 : ℚ) / 2 ^ 52 * 3) = 1 :=
    intLog_eq_of (by norm_num) (by norm_num) (by norm_num)
  rw [he]
  have harg : (4953959590107546 : ℚ) / 2 ^ 52 * 3 * 2 ^ ((52 : ℤ) - 1)
      = 7430939385161319 := by
    norm_num
  rw [harg]
  have hf : (⌊(7430939385161319 : ℚ)⌋ : ℤ) = 7430939385161319 :=
    floor_eq_of (by norm_num) (by norm_num)
  have hr : roundHalfEven ((7430939385161319 : ℚ)) = 7430939385161319 := by
    rw [roundHalfEven, hf]
    norm_num
  rw [hr, if_neg (by norm_num)]
  have : ((1 : ℤ) - 52) = -51 := by norm_num
  rw [this, zpow_neg]
  norm_num

/-- C7 counterexample: in the float-based synchronous variant
(`parse_price` of app.py, and the float products of its cart totals) money
arithmetic is *not* exact: `parse_price("$1.10") * 3` and
`parse_price("$3.30")` are different binary64 values, refuting "no binary
floating-point representation anywhere" and the exactness of
`multiply(parse(s), n)`. -/
theorem parse_price_float_counterexample :
    mulFloat (parse_price "$1.10") 3 ≠ parse_price "$3.30" := by
  have h1 : parse_price "$1.10" = fl (((110 : ℕ) : ℚ) / 10 ^ 2) := rfl
  have h2 : parse_price "$3.30" = fl (((330 : ℕ) : ℚ) / 10 ^ 2) := rfl
  rw [mulFloat, h1, h2, fl_one_ten, fl_three_thirty, fl_product_three]
  norm_num

/-! ## Title parsing and display-name formatting

Embeds `format_external_product` (src/optimized-flask-app.py lines 264-296):
size extraction by the regex `\d+(\.\d+)?\s*(ml|ML|L|oz|OZ|cl|CL)`
(`re.search`, leftmost match — the pattern needs no backtracking: a shortened
greedy run would put a digit or whitespace where the next piece must match,
so plain greedy scanning is the regex's semantics), category detection as a
whole-word case-insensitive search (`\b<type>\b`, re.IGNORECASE), removal of
every whole-word category occurrence (`re.sub`) and of every size occurrence
(`str.replace`), and the display name
`f"✨{' '.join(filter(None, [name, product_type, size]))}"`.

The optimized source iterates a Python *set* of category keywords
(`liquor_types = {...}`), whose iteration order is implementation-defined
(hash-randomized per process).  The model therefore takes the enumeration
order as an explicit parameter: `format_ext_name order title` is the name the
program builds when the set enumerates as `order`, and the program's
behaviour is what holds for *every* permutation of the keyword set.  When at
most one keyword matches the title, the result is proven independent of the
order.  (app.py line 413 uses an ordered list of the same keywords; its
formatter is embedded separately below as `formatAppName`.) -/

/-- A word character for the regex `\b` boundary (ASCII): `[A-Za-z0-9_]`. -/
def isWordChar (c : Char) : Bool := c.isAlphanum || c == '_'

/-- Case-insensitive character equality (re.IGNORECASE over ASCII). -/
def ciEq (a b : Char) : Bool := a.toLower == b.toLower

/-- `ciStarts kw l`: does `l` start with `kw`, case-insensitively? -/
def ciStarts : List Char → List Char → Bool
  | [], _ => true
  | _ :: _, [] => false
  | a :: as, b :: bs => ciEq a b && ciStarts as bs

/-- `csStarts pat l`: does `l` start with `pat` (case-sensitive)? -/
def csStarts : List Char → List Char → Bool
  | [], _ => true
  | _ :: _, [] => false
  | a :: as, b :: bs => a == b && csStarts as bs

/-- The unit alternation of the size regex, in alternation order. -/
def sizeUnits : List (List Char) :=
  [['m', 'l'], ['M', 'L'], ['L'], ['o', 'z'], ['O', 'Z'], ['c', 'l'], ['C', 'L']]

/-- First alternative that matches at the head of `l`; returns the matched
text of `l` (which preserves its case under a case-insensitive `starts`). -/
def firstUnitAt (starts : List Char → List Char → Bool) (units : List (List Char))
    (l : List Char) : Option (List Char) :=
  units.findSome? (fun u => if starts u l then some (l.take u.length) else none)

/-- Match `\d+(\.\d+)?\s*(<units>)` at the head of `l`, greedily. -/
def matchSizeAt (starts : List Char → List Char → Bool) (units : List (List Char))
    (l : List Char) : Option (List Char) :=
  let d1 := l.takeWhile Char.isDigit
  if d1.isEmpty then none
  else
    let r1 := l.drop d1.length
    let fr : List Char :=
      match r1 with
      | '.' :: rest =>
          if (rest.takeWhile Char.isDigit).isEmpty then []
          else '.' :: rest.takeWhile Char.isDigit
      | _ => []
    let r2 := r1.drop fr.length
    let ws := r2.takeWhile pySpace
    let r3 := r2.drop ws.length
    match firstUnitAt starts units r3 with
    | some u => some (d1 ++ fr ++ ws ++ u)
    | none => none

/-- `re.search`: try the size pattern at each start position, leftmost wins. -/
def findSizeFrom (starts : List Char → List Char → Bool) (units : List (List Char)) :
    List Char → Option (List Char)
  | [] => none
  | l@(_ :: rest) =>
      match matchSizeAt starts units l with
      | some m => some m
      | none => findSizeFrom starts units rest

/-- The size match of the source regex (case-sensitive alternation). -/
def findSize (l : List Char) : Option (List Char) := findSizeFrom csStarts sizeUnits l

/-- The size match as the claim words it: units ml, L, oz, cl matched
case-insensitively. -/
def specFindSize (l : List Char) : Option (List Char) :=
  findSizeFrom ciStarts [['m', 'l'], ['l'], ['o', 'z'], ['c', 'l']] l

/-- The category keywords, in source order. -/
def liquorTypes : List (List Char) :=
  ["Vodka".data, "Whiskey".data, "Tequila".data, "Rum".data, "Gin".data,
    "Brandy".data, "Wine".data, "Cognac".data, "Bourbon".data]

/-- `\b<kw>\b` matches at the head of `l`, where `prev` is the character
just before `l` in the full text (`none` at the start). -/
def wordAt (kw l : List Char) (prev : Option Char) : Bool :=
  (match prev with
   | none => true
   | some c => !isWordChar c)
  && ciStarts kw l
  && (match l.drop kw.length with
      | [] => true
      | c :: _ => !isWordChar c)

/-- `re.search(rf'\b<kw>\b', text, re.IGNORECASE) is not None`. -/
def containsWordFrom (kw : List Char) : Option Char → List Char → Bool
  | _, [] => false
  | prev, l@(c :: rest) => wordAt kw l prev || containsWordFrom kw (some c) rest

def containsWord (kw l : List Char) : Bool := containsWordFrom kw none l

/-- `re.sub(rf'\b<kw>\b', '', text, re.IGNORECASE)`: remove every
non-overlapping whole-word occurrence, scanning left to right.  The fuel
starts at the text's length, which each step strictly decreases below. -/
def subWordFuel (kw : List Char) : ℕ → Option Char → List Char → List Char
  | 0, _, l => l
  | _ + 1, _, [] => []
  | fuel + 1, prev, l@(c :: rest) =>
      if wordAt kw l prev && !kw.isEmpty then
        subWordFuel kw fuel ((l.take kw.length).getLastD c) (l.drop kw.length)
      else c :: subWordFuel kw fuel (some c) rest

def subWord (kw l : List Char) : List Char := subWordFuel kw l.length none l

/-- `str.replace(pat, '')`: remove every non-overlapping occurrence. -/
def replaceAllFuel (pat : List Char) : ℕ → List Char → List Char
  | 0, l => l
  | _ + 1, [] => []
  | fuel + 1, l@(c :: rest) =>
      if csStarts pat l && !pat.isEmpty then replaceAllFuel pat fuel (l.drop pat.length)
      else c :: replaceAllFuel pat fuel rest

def replaceAll (pat l : List Char) : List Char := replaceAllFuel pat l.length l

/-- `str.strip()` over ASCII whitespace. -/
def pyStrip (l : List Char) : List Char :=
  ((l.dropWhile pySpace).reverse.dropWhile pySpace).reverse

/-- `' '.join(parts)`. -/
def joinSpace : List (List Char) → List Char
  | [] => []
  | [p] => p
  | p :: rest => p ++ ' ' :: joinSpace rest

/-- The name built by `format_external_product` from a raw title when the
keyword set enumerates as `order`, step for step: size regex on the original
title, category = first keyword of `order` with a whole-word match in the
original title (`next(...)` over the set), category removed (whole words,
all occurrences) and stripped, then size removed (all occurrences) and
stripped, then the glyph-prefixed join of the non-empty parts. -/
def format_ext_name (order : List (List Char)) (title : List Char) : List Char :=
  let size := (findSize title).getD []
  let ptype := (order.find? (fun t => containsWord t title)).getD []
  let name1 := if !ptype.isEmpty then pyStrip (subWord ptype title) else title
  let name2 := if !size.isEmpty then pyStrip (replaceAll size name1) else name1
  '✨' :: joinSpace ([name2, ptype, size].filter (fun p => !p.isEmpty))

/-- The claim's three extraction components, the category and cleaned name
relative to the set's enumeration order. -/
def sizeOf_ (title : List Char) : List Char := (findSize title).getD []

def categoryOf (order : List (List Char)) (title : List Char) : List Char :=
  (order.find? (fun t => containsWord t title)).getD []

def cleanedNameOf (order : List (List Char)) (title : List Char) : List Char :=
  let n1 := if !(categoryOf order title).isEmpty then
              pyStrip (subWord (categoryOf order title) title)
            else title
  if !(sizeOf_ title).isEmpty then pyStrip (replaceAll (sizeOf_ title) n1) else n1

/-- The display name exactly as the original claim words it: the keyword list
in its *fixed written order*, and case-insensitive unit matching
(`specFindSize`); otherwise identical to the program's steps. -/
def specFormatTitle (title : List Char) : List Char :=
  let size := (specFindSize title).getD []
  let ptype := (liquorTypes.find? (fun t => containsWord t title)).getD []
  let name1 := if !ptype.isEmpty then pyStrip (subWord ptype title) else title
  let name2 := if !size.isEmpty then pyStrip (replaceAll size name1) else name1
  '✨' :: joinSpace ([name2, ptype, size].filter (fun p => !p.isEmpty))

/-- `find?` returns the one satisfying element, wherever it sits. -/
theorem find?_eq_some_of_unique {p : List Char → Bool} :
    ∀ {l : List (List Char)} {x : List Char}, x ∈ l → p x = true →
      (∀ y ∈ l, p y = true → y = x) → l.find? p = some x := by
  intro l
  induction l with
  | nil => intro x hx _ _; cases hx
  | cons a t ih =>
      intro x hx hpx huniq
      by_cases hpa : p a = true
      · have ha : a = x := huniq a (List.mem_cons_self a t) hpa
        rw [List.find?_cons_of_pos _ hpa, ha]
      · rw [List.find?_cons_of_neg _ hpa]
        rcases List.mem_cons.mp hx with rfl | hxt
        · exact absurd hpx hpa
        · exact ih hxt hpx (fun y hy hpy => huniq y (List.mem_cons_of_mem _ hy) hpy)

/-- When at most one element of the underlying set satisfies `p`, `find?` is
the same over every enumeration order. -/
theorem find?_congr_of_unique {p : List Char → Bool} {L o₁ o₂ : List (List Char)}
    (h1 : L.Perm o₁) (h2 : L.Perm o₂)
    (huniq : ∀ y₁ ∈ L, ∀ y₂ ∈ L, p y₁ = true → p y₂ = true → y₁ = y₂) :
    o₁.find? p = o₂.find? p := by
  by_cases hex : ∃ x ∈ L, p x = true
  · rcases hex with ⟨x, hxL, hpx⟩
    rw [find?_eq_some_of_unique (h1.mem_iff.mp hxL) hpx
          (fun y hy hpy => huniq y (h1.mem_iff.mpr hy) x hxL hpy hpx),
        find?_eq_some_of_unique (h2.mem_iff.mp hxL) hpx
          (fun y hy hpy => huniq y (h2.mem_iff.mpr hy) x hxL hpy hpx)]
  · push_neg at hex
    rw [List.find?_eq_none.mpr (fun y hy => hex y (h1.mem_iff.mpr hy)),
        List.find?_eq_none.mpr (fun y hy => hex y (h2.mem_iff.mpr hy))]

/-- The built name depends on the enumeration order only through `find?`. -/
theorem format_ext_name_congr (o₁ o₂ : List (List Char)) (title : List Char)
    (h : o₁.find? (fun t => containsWord t title)
      = o₂.find? (fun t => containsWord t title)) :
    format_ext_name o₁ title = format_ext_name o₂ title := by
  unfold format_ext_name
  rw [h]

/-- The code's display for the counterexample title under *every*
enumeration order of the keyword set (the title holds exactly one keyword,
Vodka, so the order cannot matter). -/
def counterTitleEveryOrder : Prop :=
  ∀ order : List (List Char), liquorTypes.Perm order →
    format_ext_name order ("Absolut Vodka 750mL".data) = "✨Absolut  750mL Vodka".data

/-- C6 counterexample: the title `"Absolut Vodka 750mL"`.  The source's unit
alternation `ml|ML|L|oz|OZ|cl|CL` is not case-insensitive — it misses the
mixed-case `mL` — so whatever order the keyword set enumerates in, the code
finds no size and leaves `750mL` (with the double space `re.sub` left
behind) inside the cleaned name, while the claim's case-insensitive rule
extracts size `750mL` and yields `✨Absolut Vodka 750mL`. -/
theorem title_format_counterexample :
    counterTitleEveryOrder
    ∧ specFormatTitle ("Absolut Vodka 750mL".data) = "✨Absolut Vodka 750mL".data
    ∧ "✨Absolut  750mL Vodka".data ≠ "✨Absolut Vodka 750mL".data := by
  refine ⟨?_, rfl, by decide⟩
  intro order hperm
  have huniq : ∀ z ∈ liquorTypes, containsWord z ("Absolut Vodka 750mL".data) = true
      → z = "Vodka".data := by decide
  have hfind : order.find? (fun t => containsWord t ("Absolut Vodka 750mL".data))
      = some ("Vodka".data) := by
    apply find?_eq_some_of_unique (hperm.mem_iff.mp (by decide)) (by decide)
    intro y hy hpy
    exact huniq y (hperm.mem_iff.mpr hy) hpy
  unfold format_ext_name
  rw [hfind]
  rfl

/-- C6 (amended): for every raw title and every enumeration order of the
keyword set, the display name is the glyph followed by the non-empty parts
of [cleanedName, category, size] joined by single spaces, where size is the
leftmost match of the case-sensitive alternation
`\d+(\.\d+)?\s*(ml|ML|L|oz|OZ|cl|CL)`, category is the first whole-word
case-insensitive keyword match in that enumeration order (the order is
implementation-defined; whenever at most one keyword matches the title, the
result does not depend on it), and cleanedName is the title with every
whole-word category occurrence and every size occurrence removed and
trimmed.  On `"Grey Goose Vodka 750ml"`, under every order: size `750ml`,
category `Vodka`, cleanedName `Grey Goose`, display
`✨Grey Goose Vodka 750ml`. -/
theorem title_format_amended :
    (∀ (order : List (List Char)) (title : List Char),
      format_ext_name order title =
        '✨' :: joinSpace ([cleanedNameOf order title, categoryOf order title,
          sizeOf_ title].filter (fun p => !p.isEmpty)))
    ∧ (∀ (title : List Char) (o₁ o₂ : List (List Char)),
        liquorTypes.Perm o₁ → liquorTypes.Perm o₂ →
        (∀ y₁ ∈ liquorTypes, ∀ y₂ ∈ liquorTypes,
          containsWord y₁ title = true → containsWord y₂ title = true → y₁ = y₂) →
        format_ext_name o₁ title = format_ext_name o₂ title)
    ∧ (∀ order : List (List Char), liquorTypes.Perm order →
        sizeOf_ ("Grey Goose Vodka 750ml".data) = "750ml".data
        ∧ categoryOf order ("Grey Goose Vodka 750ml".data) = "Vodka".data
        ∧ cleanedNameOf order ("Grey Goose Vodka 750ml".data) = "Grey Goose".data
        ∧ format_ext_name order ("Grey Goose Vodka 750ml".data)
            = "✨Grey Goose Vodka 750ml".data) := by
  refine ⟨fun _ _ => rfl, ?_, ?_⟩
  · intro title o₁ o₂ h1 h2 hu
    exact format_ext_name_congr o₁ o₂ title (find?_congr_of_unique h1 h2 hu)
  · intro order hperm
    have huniq : ∀ z ∈ liquorTypes, containsWord z ("Grey Goose Vodka 750ml".data) = true
        → z = "Vodka".data := by decide
    have hfind : order.find? (fun t => containsWord t ("Grey Goose Vodka 750ml".data))
        = some ("Vodka".data) := by
      apply find?_eq_some_of_unique (hperm.mem_iff.mp (by decide)) (by decide)
      intro y hy hpy
      exact huniq y (hperm.mem_iff.mpr hy) hpy
    refine ⟨rfl, ?_, ?_, ?_⟩
    · unfold categoryOf
      rw [hfind]
      rfl
    · unfold cleanedNameOf categoryOf
      rw [hfind]
      rfl
    · unfold format_ext_name
      rw [hfind]
      rfl


/-! ## The external-fetch retry loop

Embeds the retry loop of `_search_upcitemdb` (src/app.py lines 353-455):
`retries = 0; while retries < RATE_LIMIT['max_retries']` (default 3).  Each
iteration issues one network call, modelled by the oracle `att n` — the
outcome of the `n`-th call issued.  HTTP 429 sets the shared cooldown to the
server's `Retry-After` and returns at once; HTTP 400 returns at once; a
`requests` timeout or any other `RequestException` (transport failure,
including `raise_for_status`) increments `retries` and, when more attempts
remain, sleeps `2 ** retries` seconds and retries.  The loop structure is
encoded with the remaining-iteration count as structural fuel
(`remaining = max_retries - retries`); the quota bookkeeping on success
(`update_rate_limits`, `last_request`) is outside the claim and elided. -/

/-- An item of the external provider's payload. -/
structure ExtItem where
  title : String
  description : String
  upc : Option String
deriving DecidableEq

/-- Outcome of one network call. -/
inductive Outcome
  | ok (items : List ExtItem)
  | http429 (retryAfter : ℤ)
  | http400
  | timeout
  | transport
deriving DecidableEq

/-- What the retry loop returns. -/
inductive FetchRes
  | success (items : List ExtItem)
  | rateLimited (retryAfter : ℤ)
  | invalidQuery
  | timedOut
  | apiError
  | maxRetriesHit
deriving DecidableEq

/-- Result of a `_search_upcitemdb` retry loop run: the outcome, how many
network calls were issued, the backoff sleeps performed (in seconds, in
order), and the update to the shared `RATE_LIMIT['cooldown']`, if any. -/
structure LoopOut where
  result : FetchRes
  calls : ℕ
  sleeps : List ℕ
  cooldown : Option ℤ
deriving DecidableEq

/-- The loop body; `remaining` is `max_retries - retries`, `retries` counts
failures so far and equals the index of the next call. -/
def retryGo (att : ℕ → Outcome) : ℕ → ℕ → LoopOut
  | 0, retries => ⟨.maxRetriesHit, retries, [], none⟩
  | remaining + 1, retries =>
      match att retries with
      | .ok items => ⟨.success items, retries + 1, [], none⟩
      | .http429 r => ⟨.rateLimited r, retries + 1, [], some r⟩
      | .http400 => ⟨.invalidQuery, retries + 1, [], none⟩
      | .timeout =>
          if remaining = 0 then ⟨.timedOut, retries + 1, [], none⟩
          else
            let res := retryGo att remaining (retries + 1)
            ⟨res.result, res.calls, 2 ^ (retries + 1) :: res.sleeps, res.cooldown⟩
      | .transport =>
          if remaining = 0 then ⟨.apiError, retries + 1, [], none⟩
          else
            let res := retryGo att remaining (retries + 1)
            ⟨res.result, res.calls, 2 ^ (retries + 1) :: res.sleeps, res.cooldown⟩

/-- One `_search_upcitemdb` invocation's retry loop. -/
def retryLoop (maxRetries : ℕ) (att : ℕ → Outcome) : LoopOut :=
  retryGo att maxRetries 0

/-- The retryable outcomes: timeout and transport-level failure. -/
def isFail : Outcome → Bool
  | .timeout => true
  | .transport => true
  | _ => false

theorem isFail_cases {o : Outcome} (h : isFail o = true) :
    o = .timeout ∨ o = .transport := by
  cases o <;> simp [isFail] at h ⊢

/-- The number of calls never exceeds `retries + remaining`. -/
theorem retryGo_calls_le (att : ℕ → Outcome) :
    ∀ rem retries, (retryGo att rem retries).calls ≤ retries + rem := by
  intro rem
  induction rem with
  | zero =>
      intro retries
      simp [retryGo]
  | succ n ih =>
      intro retries
      cases h : att retries with
      | ok items => simp [retryGo, h]
      | http429 r => simp [retryGo, h]
      | http400 => simp [retryGo, h]
      | timeout =>
          simp only [retryGo, h]
          split
          · dsimp only
            omega
          · have := ih (retries + 1)
            dsimp only
            omega
      | transport =>
          simp only [retryGo, h]
          split
          · dsimp only
            omega
          · have := ih (retries + 1)
            dsimp only
            omega

/-- The conclusion of C5, as one predicate over the call oracle: a 429 after
`k` retryable failures returns `RateLimited` with the cooldown updated and no
further call; a 400 likewise returns `InvalidQuery` at once; three retryable
failures exhaust the loop with exactly 3 calls, sleeps `2^1, 2^2`, and
`Timeout`/`TransportError` according to the final failure; and no oracle ever
makes the loop issue more than 3 calls. -/
def retryPolicyOk (att : ℕ → Outcome) : Prop :=
  (∀ k r, k < 3 → (∀ i, i < k → isFail (att i) = true) → att k = .http429 r →
      retryLoop 3 att =
        ⟨.rateLimited r, k + 1, (List.range k).map (fun i => 2 ^ (i + 1)), some r⟩)
  ∧ (∀ k, k < 3 → (∀ i, i < k → isFail (att i) = true) → att k = .http400 →
      retryLoop 3 att =
        ⟨.invalidQuery, k + 1, (List.range k).map (fun i => 2 ^ (i + 1)), none⟩)
  ∧ ((∀ i, i < 3 → isFail (att i) = true) →
      (retryLoop 3 att).calls = 3
        ∧ (retryLoop 3 att).sleeps = [2, 4]
        ∧ (att 2 = .timeout → (retryLoop 3 att).result = .timedOut)
        ∧ (att 2 = .transport → (retryLoop 3 att).result = .apiError)
        ∧ (retryLoop 3 att).cooldown = none)
  ∧ (retryLoop 3 att).calls ≤ 3

/-- C5: the retry policy of `_search_upcitemdb` with the default
`max_retries = 3`, for every sequence of call outcomes. -/
theorem retry_policy_holds : ∀ att : ℕ → Outcome, retryPolicyOk att := by
  intro att
  refine ⟨?_, ?_, ?_, retryGo_calls_le att 3 0⟩
  · intro k r hk hpre h429
    interval_cases k
    · norm_num [retryLoop, retryGo, h429]
    · rcases isFail_cases (hpre 0 (by norm_num)) with h0 | h0 <;>
        norm_num [retryLoop, retryGo, h0, h429, List.range_succ]
    · rcases isFail_cases (hpre 0 (by norm_num)) with h0 | h0 <;>
        rcases isFail_cases (hpre 1 (by norm_num)) with h1 | h1 <;>
        norm_num [retryLoop, retryGo, h0, h1, h429, List.range_succ]
  · intro k hk hpre h400
    interval_cases k
    · norm_num [retryLoop, retryGo, h400]
    · rcases isFail_cases (hpre 0 (by norm_num)) with h0 | h0 <;>
        norm_num [retryLoop, retryGo, h0, h400, List.range_succ]
    · rcases isFail_cases (hpre 0 (by norm_num)) with h0 | h0 <;>
        rcases isFail_cases (hpre 1 (by norm_num)) with h1 | h1 <;>
        norm_num [retryLoop, retryGo, h0, h1, h400, List.range_succ]
  · intro hpre
    rcases isFail_cases (hpre 0 (by norm_num)) with h0 | h0 <;>
      rcases isFail_cases (hpre 1 (by norm_num)) with h1 | h1 <;>
      rcases isFail_cases (hpre 2 (by norm_num)) with h2 | h2 <;>
      refine ⟨?_, ?_, ?_, ?_, ?_⟩ <;>
      norm_num [retryLoop, retryGo, h0, h1, h2] <;>
      (intro hcon; exact Outcome.noConfusion hcon)


/-! ## The resolution pipelines

`lookupOpt` embeds `lookup_product` of src/optimized-flask-app.py lines
209-255, step for step and in the source's order: response-cache probe by
the *raw* route parameter, then validation, then the sliding-window rate
limiter (the global `RateLimiter(100, 60)`), then the local catalog, then
the external fetch.  `PRODUCT_CACHE` is modelled as an association list
keyed by the raw barcode (its LRU capacity of 1000 plays no role in C3 and
is elided here; the LRU discipline itself is modelled for C10 below).
A fetch result carrying an `'error'` key is returned with status 429;
otherwise `format_external_product` builds the body and it is cached and
returned with status 200.

`lookupApp` embeds `lookup_product` of src/app.py lines 148-197: validation,
then `check_rate_limit` (modelled as a boolean decision — its internal
clock/error-streak state is not at issue in C4), then the local catalog,
then the cached external search.  The not-found dict
`{'found': False, 'message': ...}` the search returns on a successful call
with no items is truthy and carries no `'error'` key, so app.py's
`return jsonify(external_result)` answers it with HTTP status 200; the 404
branch requires a falsy `external_result`, which the search never
produces. -/

/-- A catalog product of the optimized variant ({name, price: Decimal}). -/
structure Product where
  name : String
  price : ℚ
deriving DecidableEq

/-- A response body the optimized pipeline can build and cache. -/
inductive Resp
  | localHit (name : String) (price : ℚ) (barcode : String)
  | extFound (name : String) (description : String) (upc : Option String)
  | extNotFound
deriving DecidableEq

/-- `format_external_product` (optimized-flask-app.py lines 264-296).  The
embedded name fixes the keyword enumeration to the written order; C3's
properties (the pipeline's step order and statuses) treat the built body as
opaque and do not depend on that choice — the order-sensitivity of the name
itself is the subject of C6's `title_format_amended`. -/
def format_external_product (items : List ExtItem) : Resp :=
  match items with
  | [] => .extNotFound
  | item :: _ =>
      .extFound (String.mk (format_ext_name liquorTypes item.title.data))
        item.description item.upc

/-- What `fetch_upc_data` hands back: an `'error'` dict (a 429 with
retry-after, or the message of a caught exception) or the JSON payload. -/
inductive ExtData
  | fetchErr
  | payload (items : List ExtItem)
deriving DecidableEq

/-- The optimized pipeline's observable answer. -/
inductive OptResult
  | body (r : Resp)
  | invalidUpc
  | limited (retryAfter : ℤ)
  | fetchFailed
deriving DecidableEq

/-- `lookup_product` (optimized-flask-app.py): returns
`((result, http_status), PRODUCT_CACHE', rate-limiter requests')`. -/
def lookupOpt (cache : List (String × Resp)) (reqs : List ℚ) (now : ℚ)
    (inv : String → Option Product) (ext : ExtData) (barcode : String) :
    (OptResult × ℕ) × List (String × Resp) × List ℚ :=
  match (cache.find? (fun p => p.1 == barcode)).map (fun p => p.2) with
  | some r => ((.body r, 200), cache, reqs)
  | none =>
    match validate_upc barcode with
    | none => ((.invalidUpc, 400), cache, reqs)
    | some result =>
      let rl := isAllowed 100 60 reqs now
      match rl.1 with
      | (false, w) => ((.limited (w.getD 0), 429), cache, rl.2)
      | (true, _) =>
        match inv result with
        | some p =>
            ((.body (.localHit p.name p.price result), 200),
              (barcode, Resp.localHit p.name p.price result) :: cache, rl.2)
        | none =>
          match ext with
          | .fetchErr => ((.fetchFailed, 429), cache, rl.2)
          | .payload items =>
              ((.body (format_external_product items), 200),
                (barcode, format_external_product items) :: cache, rl.2)

/-- A small catalog holding the valid barcode 012345678905. -/
def invC3 : String → Option Product :=
  fun b => if b = "012345678905" then some ⟨"Smirnoff", 10⟩ else none

/-- C3 counterexample: a valid barcode that the local catalog holds, with
the rate-limiter window full (100 admissions at time 0, looked up at time
0).  The code consults the rate limiter *before* the catalog, so the lookup
answers 429 RateLimited — against the claim that a catalog hit can never be
rate limited. -/
theorem pipeline_counterexample :
    (lookupOpt [] (List.replicate 100 (0 : ℚ)) 0 invC3 (ExtData.payload []) "012345678905").1
      = (.limited 60, 429)
    ∧ invC3 "012345678905" = some ⟨"Smirnoff", 10⟩
    ∧ validate_upc "012345678905" = some "012345678905" := by
  refine ⟨?_, rfl, rfl⟩
  have hfil : (List.replicate 100 (0 : ℚ)).filter (fun r => decide ((0 : ℚ) - r < 60))
      = List.replicate 100 (0 : ℚ) := by
    apply List.filter_eq_self.mpr
    intro a ha
    rw [List.eq_of_mem_replicate ha]
    simp only [decide_eq_true_eq]
    norm_num
  have hrl : isAllowed 100 60 (List.replicate 100 (0 : ℚ)) 0
      = ((false, some 60), List.replicate 100 (0 : ℚ)) := by
    unfold isAllowed
    dsimp only
    rw [hfil, if_neg (by simp)]
    have hh : (List.replicate 100 (0 : ℚ)).headI = 0 := by
      rw [show (100 : ℕ) = 99 + 1 from rfl, List.replicate_succ, List.headI_cons]
    rw [hh]
    have hp : pyInt (0 + 60 - 0 : ℚ) = 60 := by
      rw [pyInt, if_neg (by norm_num)]
      exact floor_eq_of (by norm_num) (by norm_num)
    rw [hp]
  have hv : validate_upc "012345678905" = some "012345678905" := rfl
  unfold lookupOpt
  simp only [List.find?_nil, Option.map_none, hv, hrl]
  rfl

/-- The conclusion of the amended C3 claim: the optimized pipeline's steps
in source order — raw-keyed cache probe, validation, rate-limit admission,
catalog, external fetch — and their observable effects. -/
def lookupPipelineOk (cache : List (String × Resp)) (reqs : List ℚ) (now : ℚ)
    (inv : String → Option Product) (ext : ExtData) (barcode : String) : Prop :=
  (∀ r, (cache.find? (fun p => p.1 == barcode)).map (fun p => p.2) = some r →
      lookupOpt cache reqs now inv ext barcode = ((.body r, 200), cache, reqs))
  ∧ ((cache.find? (fun p => p.1 == barcode)).map (fun p => p.2) = none →
      validate_upc barcode = none →
      lookupOpt cache reqs now inv ext barcode = ((.invalidUpc, 400), cache, reqs))
  ∧ (∀ result w, (cache.find? (fun p => p.1 == barcode)).map (fun p => p.2) = none →
      validate_upc barcode = some result →
      (isAllowed 100 60 reqs now).1 = (false, w) →
      lookupOpt cache reqs now inv ext barcode
        = ((.limited (w.getD 0), 429), cache, (isAllowed 100 60 reqs now).2))
  ∧ (∀ result p, (cache.find? (fun p => p.1 == barcode)).map (fun p => p.2) = none →
      validate_upc barcode = some result →
      (isAllowed 100 60 reqs now).1.1 = true → inv result = some p →
      lookupOpt cache reqs now inv ext barcode
        = ((.body (.localHit p.name p.price result), 200),
            (barcode, Resp.localHit p.name p.price result) :: cache,
            (isAllowed 100 60 reqs now).2))
  ∧ (∀ result, (cache.find? (fun p => p.1 == barcode)).map (fun p => p.2) = none →
      validate_upc barcode = some result →
      (isAllowed 100 60 reqs now).1.1 = true → inv result = none →
      lookupOpt cache reqs now inv ext barcode
        = (match ext with
           | .fetchErr => ((.fetchFailed, 429), cache, (isAllowed 100 60 reqs now).2)
           | .payload items =>
               ((.body (format_external_product items), 200),
                 (barcode, format_external_product items) :: cache,
                 (isAllowed 100 60 reqs now).2)))

/-- C3 (amended): the resolution order of the optimized pipeline is response
cache (keyed by the raw barcode) → validation → rate-limit admission → local
catalog → external fetch.  A catalog hit therefore happens only after
admission: an admitted catalog hit returns the product with external=false
and never consults the external service, but a denied call returns
RateLimited even for a barcode the catalog holds. -/
theorem pipeline_order_amended :
    ∀ cache reqs now inv ext barcode, lookupPipelineOk cache reqs now inv ext barcode := by
  intro cache reqs now inv ext barcode
  refine ⟨?_, ?_, ?_, ?_, ?_⟩
  · intro r hr
    unfold lookupOpt
    rw [hr]
  · intro hc hv
    unfold lookupOpt
    rw [hc, hv]
  · intro result w hc hv hrl
    unfold lookupOpt
    rw [hc, hv]
    dsimp only
    rw [hrl]
  · intro result p hc hv hrl hp
    unfold lookupOpt
    rw [hc, hv]
    dsimp only
    rcases hpair : (isAllowed 100 60 reqs now).1 with ⟨b, ow⟩
    rw [hpair] at hrl
    dsimp at hrl
    subst hrl
    rw [hp]
  · intro result hc hv hrl hp
    unfold lookupOpt
    rw [hc, hv]
    dsimp only
    rcases hpair : (isAllowed 100 60 reqs now).1 with ⟨b, ow⟩
    rw [hpair] at hrl
    dsimp at hrl
    subst hrl
    rw [hp]


/-! ### The synchronous pipeline of app.py -/

/-- A catalog product of app.py: name and the raw CSV price string. -/
structure AppProduct where
  name : String
  price : String
deriving DecidableEq

/-- A dict `_search_upcitemdb` can return.  Every one of them is non-empty,
hence truthy in `if external_result:`. -/
inductive SearchResp
  | errDict (kind : String) (retryAfter : Option ℤ)
  | notFound
  | found (name : String) (description : String) (upc : String)
deriving DecidableEq

/-- `format_product_name` (app.py lines 84-97): the glyph-prefixed join of
[stripped name, stripped type, "- " + stripped size], empty parts skipped;
empty string when nothing remains. -/
def format_product_name (name ptype size : List Char) : List Char :=
  let parts := (if !name.isEmpty then [pyStrip name] else [])
    ++ (if !ptype.isEmpty then [pyStrip ptype] else [])
    ++ (if !size.isEmpty then ['-' :: ' ' :: pyStrip size] else [])
  if parts.isEmpty then [] else '✨' :: joinSpace parts

/-- app.py's title handling (lines 402-420): size removed first, category
then searched on the size-stripped name. -/
def formatAppName (title : List Char) : List Char :=
  let size := (findSize title).getD []
  let name1 := if !size.isEmpty then pyStrip (replaceAll size title) else title
  let ptype := (liquorTypes.find? (fun t => containsWord t name1)).getD []
  let name2 := if !ptype.isEmpty then pyStrip (subWord ptype name1) else name1
  format_product_name name2 ptype size

/-- The dict `_search_upcitemdb` builds from a finished retry loop (app.py
lines 393-428 and the error returns): success with no items gives the truthy
`{'found': False, 'message': 'No product found for this UPC code'}`. -/
def searchRespOfFetch (barcode : String) : FetchRes → SearchResp
  | .success [] => .notFound
  | .success (item :: _) =>
      .found (String.mk (formatAppName item.title.data)) item.description (item.upc.getD barcode)
  | .rateLimited r => .errDict "rate_limit" (some r)
  | .invalidQuery => .errDict "invalid_query" none
  | .timedOut => .errDict "timeout" none
  | .apiError => .errDict "api_error" none
  | .maxRetriesHit => .errDict "max_retries" none

/-- The observable answer of app.py's `lookup_product`. -/
inductive AppResult
  | invalidUpc
  | rateLimitedLocal
  | localFound (name price barcode : String)
  | external (r : SearchResp)
  | notFoundAnywhere
deriving DecidableEq

/-- `lookup_product` (app.py lines 148-197): validate, `check_rate_limit`
(abstracted to its decision), local catalog, then the cached external
search; an `'error'` dict answers 429 for `rate_limit` and 400 otherwise,
any other truthy dict answers 200, and the 404 branch fires only on a falsy
`external_result` (`none` here). -/
def lookupApp (inv : String → Option AppProduct) (rlDenied : Bool)
    (search : String → Option SearchResp) (barcode : String) : AppResult × ℕ :=
  match validate_upc barcode with
  | none => (.invalidUpc, 400)
  | some result =>
    if rlDenied then (.rateLimitedLocal, 429)
    else
      match inv result with
      | some p => (.localFound p.name p.price result, 200)
      | none =>
        match search result with
        | some (SearchResp.errDict kind ra) =>
            (.external (.errDict kind ra), if kind = "rate_limit" then 429 else 400)
        | some r => (.external r, 200)
        | none => (.notFoundAnywhere, 404)

/-- C4: a valid barcode ("00000000") absent from the catalog, rate limit
clear, and an external call that succeeds with no items: `_search_upcitemdb`
returns the truthy not-found dict, so app.py answers HTTP **200** with
`{'found': False, ...}` — the 404 branch is unreachable because the search
never returns a falsy value.  (The optimized variant likewise returns the
`format_external_product` not-found body with status 200.) -/
theorem lookup_notfound_status_bug :
    lookupApp (fun _ => none) false
        (fun c => some (searchRespOfFetch c (retryLoop 3 (fun _ => Outcome.ok [])).result))
        "00000000"
      = (.external .notFound, 200)
    ∧ (retryLoop 3 (fun _ => Outcome.ok [])).result = FetchRes.success []
    ∧ (lookupOpt [] [] 0 (fun _ => none) (ExtData.payload []) "00000000").1
      = (.body .extNotFound, 200) := by
  refine ⟨rfl, rfl, rfl⟩


/-! ## The memoizing response cache of app.py

`@lru_cache(maxsize=1000)` on `cached_upcitemdb_search` (src/app.py lines
311-314) memoizes **whatever** `_search_upcitemdb` returns — found items,
not-found dicts and error dicts alike — keyed by the (normalized) barcode
argument.  Model: an association list in recency order, most recent first; a
hit returns the stored dict without invoking the wrapped function and moves
the key to the front; a miss invokes it, stores the result at the front and,
past capacity, evicts the last (least recently used) entry.  The Bool in the
result records whether the wrapped function (hence the network) ran. -/

/-- Lookup in the memo table. -/
def lruFind (c : List (String × SearchResp)) (k : String) : Option SearchResp :=
  (c.find? (fun p => p.1 == k)).map (fun p => p.2)

/-- A hit marks the entry most recently used. -/
def lruPromote (c : List (String × SearchResp)) (k : String) : List (String × SearchResp) :=
  match lruFind c k with
  | some v => (k, v) :: c.filter (fun p => !(p.1 == k))
  | none => c

/-- One call through the `lru_cache` wrapper with capacity `cap`:
`(result, table', wrapped-function-invoked)`. -/
def cachedSearchLru (cap : ℕ) (c : List (String × SearchResp)) (k : String)
    (compute : Unit → SearchResp) : SearchResp × List (String × SearchResp) × Bool :=
  match lruFind c k with
  | some v => (v, lruPromote c k, false)
  | none =>
      let v := compute ()
      (v, ((k, v) :: c).take cap, true)

/-- `cached_upcitemdb_search`: the wrapper at its source capacity 1000. -/
def cached_upcitemdb_search (c : List (String × SearchResp)) (k : String)
    (compute : Unit → SearchResp) : SearchResp × List (String × SearchResp) × Bool :=
  cachedSearchLru 1000 c k compute

theorem find?_filter_of_ne {c : List (String × SearchResp)} {k k' : String} (hkk : k ≠ k') :
    (c.filter (fun p => !(p.1 == k'))).find? (fun p => p.1 == k)
      = c.find? (fun p => p.1 == k) := by
  induction c with
  | nil => rfl
  | cons a t ih =>
      by_cases ha : a.1 = k
      · have h1 : (a.1 == k') = false := by
          simp [ha]
          exact hkk
        have h2 : (a.1 == k) = true := by simp [ha]
        rw [List.filter_cons_of_pos (by simp [h1]), List.find?_cons_of_pos _ (by simp [h2]),
          List.find?_cons_of_pos _ (by simp [h2])]
      · have h2 : (a.1 == k) = false := by simp [ha]
        by_cases hb : a.1 = k'
        · have h1 : (a.1 == k') = true := by simp [hb]
          rw [List.filter_cons_of_neg (by simp [h1]), List.find?_cons_of_neg _ (by simp [h2]), ih]
        · have h1 : (a.1 == k') = false := by
            simp [hb]
          rw [List.filter_cons_of_pos (by simp [h1]), List.find?_cons_of_neg _ (by simp [h2]),
            List.find?_cons_of_neg _ (by simp [h2]), ih]

/-- C10: once the memo table holds a result for a barcode — any result,
error dicts included — a lookup of that barcode returns the identical stored
dict without invoking the network, keeps the entry cached (most recently
used); a lookup of a different barcode disturbs it only by LRU capacity
pressure: a hit elsewhere preserves it, a miss inserts the new result at the
front, preserves everything whenever the table was below capacity, and can
only ever drop entries from the least-recently-used tail; and a miss always
stores the fresh result (whatever it is) under its key. -/
theorem lru_cache_replays :
    (∀ c k v compute, lruFind c k = some v →
        cached_upcitemdb_search c k compute = (v, lruPromote c k, false)
          ∧ lruFind (lruPromote c k) k = some v)
    ∧ (∀ (cap : ℕ) c k k' v compute, lruFind c k = some v → k ≠ k' →
        (∀ w, lruFind c k' = some w →
            lruFind (cachedSearchLru cap c k' compute).2.1 k = some v)
          ∧ (lruFind c k' = none →
              (cachedSearchLru cap c k' compute).2.1 = ((k', compute ()) :: c).take cap
                ∧ (c.length + 1 ≤ cap →
                    lruFind (((k', compute ()) :: c).take cap) k = some v)
                ∧ ∀ e ∈ c, e ∉ ((k', compute ()) :: c).take cap → e ∈ c.drop (cap - 1)))
    ∧ (∀ (cap : ℕ) c k compute, 1 ≤ cap → lruFind c k = none →
        lruFind (cachedSearchLru cap c k compute).2.1 k = some (compute ())) := by
  refine ⟨?_, ?_, ?_⟩
  · intro c k v compute h
    constructor
    · unfold cached_upcitemdb_search cachedSearchLru
      rw [h]
    · unfold lruPromote
      rw [h]
      dsimp only
      unfold lruFind
      rw [List.find?_cons_of_pos _ (by simp)]
      rfl
  · intro cap c k k' v compute hk hkk
    constructor
    · intro w hw
      unfold cachedSearchLru
      rw [hw]
      dsimp only
      unfold lruPromote
      rw [hw]
      dsimp only
      unfold lruFind
      rw [List.find?_cons_of_neg _ (by simp; exact fun he => absurd he.symm hkk)]
      unfold lruFind at hk
      rw [find?_filter_of_ne hkk]
      exact hk
    · intro hmiss
      refine ⟨?_, ?_, ?_⟩
      · unfold cachedSearchLru
        rw [hmiss]
      · intro hlen
        rw [List.take_of_length_le (by simpa using hlen)]
        unfold lruFind
        rw [List.find?_cons_of_neg _ (by simp; exact fun he => absurd he.symm hkk)]
        exact hk
      · intro e he hnot
        cases cap with
        | zero =>
            simpa using he
        | succ m =>
            rw [List.take_succ_cons] at hnot
            have : e ∉ c.take m := fun hmem => hnot (List.mem_cons_of_mem _ (by simpa using hmem))
            have hsplit := List.take_append_drop m c
            rcases List.mem_append.mp (hsplit ▸ he) with h1 | h1
            · exact absurd h1 this
            · simpa using h1
  · intro cap c k compute hcap hmiss
    unfold cachedSearchLru
    rw [hmiss]
    dsimp only
    obtain ⟨m, rfl⟩ : ∃ m, cap = m + 1 := ⟨cap - 1, by omega⟩
    rw [List.take_succ_cons]
    unfold lruFind
    rw [List.find?_cons_of_pos _ (by simp)]
    rfl

end RoyalLiquor
